import Mathlib

/-!
Verification of the SIMPLISMA self-modeling mixture analysis core and the
masked-data adapter of the spectrochempy repository.

The embedding follows the source closely:

* spectrochempy/core/analysis/simplisma.py, class SIMPLISMA: the statistics
  (per-variable mean, standard deviation, noise offset alpha, purity p,
  scaled data, dispersion matrix COO), the iteration-0 weights and purity,
  the determinant-based weights of later iterations, the first-maximum
  argmax selection, the figures-of-merit computation, and the
  non-interactive selection loop with its tolerance and maximum-component
  termination.  Floating point arithmetic is modelled by exact real
  arithmetic; numpy arrays are modelled as total index functions together
  with explicit dimensions.  The external least-squares solver
  numpy.linalg.lstsq is not code of this repository and is modelled as an
  abstract function parameter.
* spectrochempy/analysis/abstractanalysis.py: the helpers _get_masked_rc,
  _remove_masked_data and _restore_masked_data, including the exact-shape
  requirement of the numpy slice assignments performed by the restore code.
-/

namespace Simplisma

/-- A numpy-style 2-D array: explicit dimensions and a total entry function. -/
structure Mat where
  rows : ℕ
  cols : ℕ
  entry : ℕ → ℕ → ℝ

/-- Parameters of one non-interactive SIMPLISMA run: the data matrix X of
shape m by nv (spectra in rows), the effective number of pure compounds npc,
the noise and tol settings, and the abstract least-squares solver standing
for numpy.linalg.lstsq (it receives the number of fitted columns, the
concentration data and the data matrix, and returns the solution rows). -/
structure P where
  m : ℕ
  nv : ℕ
  npc : ℕ
  X : ℕ → ℕ → ℝ
  noise : ℝ
  tol : ℝ
  lstsq : ℕ → (ℕ → ℕ → ℝ) → (ℕ → ℕ → ℝ) → ℕ → ℕ → ℝ

/-- Per-variable mean of the data, numpy.mean with axis 0. -/
noncomputable def mean (Pm : P) (c : ℕ) : ℝ :=
  (∑ i ∈ Finset.range Pm.m, Pm.X i c) / Pm.m

/-- Per-variable standard deviation, numpy.std with axis 0 (population std). -/
noncomputable def std (Pm : P) (c : ℕ) : ℝ :=
  Real.sqrt ((∑ i ∈ Finset.range Pm.m, (Pm.X i c - mean Pm c) ^ 2) / Pm.m)

/-- Maximum of the first n values of v, as numpy.max computes it by scanning. -/
noncomputable def npMax (v : ℕ → ℝ) : ℕ → ℝ
  | 0 => 0
  | 1 => v 0
  | (n + 2) => max (npMax v (n + 1)) (v (n + 1))

/-- Index of the first maximum of the first n values of v, as numpy.argmax
computes it: a later index replaces the current best only when its value is
strictly greater. -/
noncomputable def npArgmax (v : ℕ → ℝ) : ℕ → ℕ
  | 0 => 0
  | 1 => 0
  | (n + 2) =>
    if v (npArgmax v (n + 1)) < v (n + 1) then n + 1 else npArgmax v (n + 1)

/-- Specification-side characterisation of a first-occurrence argmax over
indices below n: k is in range, no value exceeds v k, and every strictly
earlier index has a strictly smaller value. -/
def isFirstArgmax (v : ℕ → ℝ) (n k : ℕ) : Prop :=
  k < n ∧ (∀ i < n, v i ≤ v k) ∧ ∀ i < k, v i < v k

/-- Noise offset alpha, source line 193: (noise / 100) * max(mu). -/
noncomputable def alphaV (Pm : P) : ℝ :=
  (Pm.noise / 100) * npMax (fun c => mean Pm c) Pm.nv

/-- The lambda vector of the source, line 194: sqrt(mu^2 + sigma^2). -/
noncomputable def lamda (Pm : P) (c : ℕ) : ℝ :=
  Real.sqrt (mean Pm c ^ 2 + std Pm c ^ 2)

/-- Purity vector p, source line 195: sigma / (mu + alpha). -/
noncomputable def pPur (Pm : P) (c : ℕ) : ℝ :=
  std Pm c / (mean Pm c + alphaV Pm)

/-- Scaled data, source line 198: X / sqrt(mu^2 + (sigma + alpha)^2). -/
noncomputable def Xscaled (Pm : P) (i c : ℕ) : ℝ :=
  Pm.X i c / Real.sqrt (mean Pm c ^ 2 + (std Pm c + alphaV Pm) ^ 2)

/-- Dispersion matrix COO, source line 201:
(1 / X.shape[-2]) * dot(Xscaled.T, Xscaled). -/
noncomputable def COO (Pm : P) (a b : ℕ) : ℝ :=
  (1 / (Pm.m : ℝ)) * ∑ i ∈ Finset.range Pm.m, Xscaled Pm i a * Xscaled Pm i b

/-- Sum of all entries of the m by nv block of A. -/
noncomputable def sum2 (m nv : ℕ) (A : ℕ → ℕ → ℝ) : ℝ :=
  ∑ r ∈ Finset.range m, ∑ c ∈ Finset.range nv, A r c

/-- Frobenius norm of the m by nv block of A, as numpy.linalg.norm computes
it for a 2-D array. -/
noncomputable def normF (m nv : ℕ) (A : ℕ → ℕ → ℝ) : ℝ :=
  Real.sqrt (sum2 m nv fun r c => A r c ^ 2)

/-- Mean of all entries of the m by nv block of A. -/
noncomputable def meanAll (m nv : ℕ) (A : ℕ → ℕ → ℝ) : ℝ :=
  sum2 m nv A / (m * nv)

/-- Population standard deviation of all entries of the m by nv block of A,
as numpy.std computes it on the flattened array. -/
noncomputable def stdAll (m nv : ℕ) (A : ℕ → ℕ → ℝ) : ℝ :=
  Real.sqrt (sum2 m nv (fun r c => (A r c - meanAll m nv A) ^ 2) / (m * nv))

/-- Output of figures_of_merit: the updated concentration and pure-spectra
matrices (mutated in place in the source) and the two scalar diagnostics. -/
structure FOM where
  Cn : Mat
  Stn : Mat
  rsquare : ℝ
  stdevRes : ℝ

/-- The figures_of_merit helper, source lines 90-98.  Column j of C is set to
the column of X at maxPIndex j; rows 0..j of St are overwritten with the
least-squares solution fitting C[:, 0:j+1] against X; Xhat is the product of
those blocks; the returned scalars are the coefficient of determination and
the standard deviation of the residual. -/
noncomputable def figures_of_merit (lstsq : ℕ → (ℕ → ℕ → ℝ) → (ℕ → ℕ → ℝ) → ℕ → ℕ → ℝ)
    (m nv : ℕ) (X : ℕ → ℕ → ℝ) (mpi : ℕ → ℕ) (C St : Mat) (j : ℕ) : FOM :=
  let CE : ℕ → ℕ → ℝ := fun r c => if c = j then X r (mpi j) else C.entry r c
  let sol : ℕ → ℕ → ℝ := lstsq (j + 1) CE X
  let StE : ℕ → ℕ → ℝ := fun r c => if r ≤ j then sol r c else St.entry r c
  let Xhat : ℕ → ℕ → ℝ := fun r c => ∑ k ∈ Finset.range (j + 1), CE r k * StE k c
  let res : ℕ → ℕ → ℝ := fun r c => Xhat r c - X r c
  ⟨⟨C.rows, C.cols, CE⟩, ⟨St.rows, St.cols, StE⟩,
    1 - normF m nv res ^ 2 / normF m nv X ^ 2,
    stdAll m nv res⟩

/-- Mutable state of the selection loop: the weight, standard-deviation,
purity, concentration and pure-spectra matrices, the list of selected purest
variable indices, and the scalars of the last figures-of-merit call. -/
structure RState where
  w : Mat
  s : Mat
  Pt : Mat
  C : Mat
  St : Mat
  maxPIndex : ℕ → ℕ
  rsquare : ℝ
  stdevRes : ℝ
  prevStdev : ℝ

/-- Initial containers, source lines 160-187: all result matrices are
allocated once at worst-case size npc and filled with zeros; the selected
index list starts as npc zeros. -/
noncomputable def initState (Pm : P) : RState :=
  ⟨⟨Pm.npc, Pm.nv, fun _ _ => 0⟩, ⟨Pm.npc, Pm.nv, fun _ _ => 0⟩,
    ⟨Pm.npc, Pm.nv, fun _ _ => 0⟩, ⟨Pm.m, Pm.npc, fun _ _ => 0⟩,
    ⟨Pm.npc, Pm.nv, fun _ _ => 0⟩, fun _ => 0, 0, 0, 0⟩

/-- Iteration 0 of the loop, source lines 208-271 (non-interactive part):
w[0] = lambda^2 / (mu^2 + (sigma + alpha)^2); s[0] = sigma * w[0];
Pt[0] = p * w[0]; the first purest index is argmax of Pt[0]; then
figures_of_merit updates C, St and the scalars. -/
noncomputable def iter0 (Pm : P) (st : RState) : RState :=
  let wE : ℕ → ℕ → ℝ := fun r c =>
    if r = 0 then lamda Pm c ^ 2 / (mean Pm c ^ 2 + (std Pm c + alphaV Pm) ^ 2)
    else st.w.entry r c
  let sE : ℕ → ℕ → ℝ := fun r c => if r = 0 then std Pm c * wE 0 c else st.s.entry r c
  let PtE : ℕ → ℕ → ℝ := fun r c => if r = 0 then pPur Pm c * wE 0 c else st.Pt.entry r c
  let sel0 : ℕ := npArgmax (fun c => PtE 0 c) Pm.nv
  let mpi : ℕ → ℕ := fun k => if k = 0 then sel0 else st.maxPIndex k
  let fom := figures_of_merit Pm.lstsq Pm.m Pm.nv Pm.X mpi st.C st.St 0
  ⟨⟨st.w.rows, st.w.cols, wE⟩, ⟨st.s.rows, st.s.cols, sE⟩,
    ⟨st.Pt.rows, st.Pt.cols, PtE⟩, fom.Cn, fom.Stn, mpi,
    fom.rsquare, fom.stdevRes, fom.stdevRes⟩

/-- The candidate index sequence of iteration j, source line 277:
idx = [i] + maxPIndex[0:j]. -/
def idxList (i : ℕ) (selv : ℕ → ℕ) : ℕ → ℕ
  | 0 => i
  | (k + 1) => selv k

/-- Weight of candidate variable i at iteration j, source lines 276-281: the
determinant of the (j+1) by (j+1) matrix whose entries are COO sampled at the
candidate index sequence. -/
noncomputable def wDet (Pm : P) (j : ℕ) (selv : ℕ → ℕ) (i : ℕ) : ℝ :=
  Matrix.det (Matrix.of fun a b : Fin (j + 1) =>
    COO Pm (idxList i selv (a : ℕ)) (idxList i selv (b : ℕ)))

/-- Iteration j of the loop for j greater than 0, source lines 274-292
(non-interactive part): w[j, i] is the determinant weight; Pt[j:] is
assigned p * w[j] (a numpy broadcast over all rows from j on); s[j] is
sigma * w[j]; the j-th purest index is argmax of Pt[j]; then
figures_of_merit updates C, St and the scalars. -/
noncomputable def stepJ (Pm : P) (j : ℕ) (st : RState) : RState :=
  let wE : ℕ → ℕ → ℝ := fun r c =>
    if r = j then wDet Pm j st.maxPIndex c else st.w.entry r c
  let PtE : ℕ → ℕ → ℝ := fun r c =>
    if j ≤ r then pPur Pm c * wE j c else st.Pt.entry r c
  let sE : ℕ → ℕ → ℝ := fun r c => if r = j then std Pm c * wE j c else st.s.entry r c
  let selj : ℕ := npArgmax (fun c => PtE j c) Pm.nv
  let mpi : ℕ → ℕ := fun k => if k = j then selj else st.maxPIndex k
  let fom := figures_of_merit Pm.lstsq Pm.m Pm.nv Pm.X mpi st.C st.St j
  ⟨⟨st.w.rows, st.w.cols, wE⟩, ⟨st.s.rows, st.s.cols, sE⟩,
    ⟨st.Pt.rows, st.Pt.cols, PtE⟩, fom.Cn, fom.Stn, mpi,
    fom.rsquare, fom.stdevRes, fom.stdevRes⟩

/-- State of the run after iteration j: iteration 0 is iter0 on the freshly
allocated containers, iteration j+1 is stepJ at index j+1. -/
noncomputable def stateAt (Pm : P) : ℕ → RState
  | 0 => iter0 Pm (initState Pm)
  | (j + 1) => stepJ Pm (j + 1) (stateAt Pm j)

/-- Result of a completed non-interactive run: the accepted component count,
whether the tolerance criterion fired, and the (possibly sliced) output
matrices Pt, s, C, St. -/
structure RunResult where
  count : ℕ
  converged : Bool
  Pt : Mat
  s : Mat
  C : Mat
  St : Mat

/-- Terminal states of the non-interactive controller. -/
inductive TermReason where
  | converged : TermReason
  | maxReached : TermReason
deriving DecidableEq

/-- The terminal state reached by a run: CONVERGED when the tolerance
criterion fired, MAX_REACHED otherwise. -/
def RunResult.reason (r : RunResult) : TermReason :=
  if r.converged then TermReason.converged else TermReason.maxReached

/-- The while loop of the source, lines 204-390, restricted to the
non-interactive branch, entered with the loop counter already advanced past
iteration 0.  Each pass checks the maximum-count guard, performs iteration j,
then checks the tolerance criterion (slicing Pt, St, s and C down to the
accepted count when it fires, source lines 371-382) and the maximum-count
condition (source lines 383-390, no slicing). -/
noncomputable def runLoop (Pm : P) : ℕ → ℕ → RState → RunResult
  | 0, j, st => ⟨j, false, st.Pt, st.s, st.C, st.St⟩
  | (fuel + 1), j, st =>
    if j = Pm.npc then ⟨j, false, st.Pt, st.s, st.C, st.St⟩
    else
      let st2 := stepJ Pm j st
      if 1 - st2.rsquare < Pm.tol / 100 then
        ⟨j + 1, true, ⟨j + 1, st2.Pt.cols, st2.Pt.entry⟩,
          ⟨j + 1, st2.s.cols, st2.s.entry⟩,
          ⟨st2.C.rows, j + 1, st2.C.entry⟩,
          ⟨j + 1, st2.St.cols, st2.St.entry⟩⟩
      else if j + 1 = Pm.npc then ⟨j + 1, false, st2.Pt, st2.s, st2.C, st2.St⟩
      else runLoop Pm fuel (j + 1) st2

/-- A complete non-interactive run: iteration 0, then the loop from counter
value 1. -/
noncomputable def runNI (Pm : P) : RunResult :=
  runLoop Pm (Pm.npc - 1) 1 (stateAt Pm 0)

/-- The tolerance criterion of source line 371 evaluated on the figures of
merit of iteration j: (1 - rsquare) < tol / 100. -/
noncomputable def critAt (Pm : P) (j : ℕ) : Prop :=
  1 - (stateAt Pm j).rsquare < Pm.tol / 100

/-- A Python number passed as the n_pc keyword: an int or a float. -/
inductive PyNum where
  | pint : ℤ → PyNum
  | pfloat : ℚ → PyNum
deriving DecidableEq

/-- Numeric value of a PyNum. -/
def PyNum.toRat : PyNum → ℚ
  | PyNum.pint z => (z : ℚ)
  | PyNum.pfloat q => q

/-- Whether a PyNum is a Python int, as isinstance(n_pc, int) reports. -/
def PyNum.isInt : PyNum → Bool
  | PyNum.pint _ => true
  | PyNum.pfloat _ => false

/-- Natural-number value of a valid (integer, at least 2) PyNum. -/
def PyNum.toNatVal : PyNum → ℕ
  | PyNum.pint z => z.toNat
  | PyNum.pfloat _ => 0

/-- Errors raised by the SIMPLISMA constructor checks. -/
inductive SErr where
  | notTwoD : SErr
  | badNPc : SErr
deriving DecidableEq

/-- The argument checks of the constructor, source lines 116-135, in source
order: the 2-D check, then the n_pc validation (n_pc < 2 or not an int
raises), then the interactive override that forces n_pc to 100.  Returns the
effective number of pure compounds on success. -/
def simplismaCheck (ndim : ℕ) (interactive : Bool) (npcArg : PyNum) : Except SErr ℕ :=
  if ndim ≠ 2 then Except.error SErr.notTwoD
  else if npcArg.toRat < 2 ∨ npcArg.isInt = false then Except.error SErr.badNPc
  else Except.ok (if interactive then 100 else npcArg.toNatVal)

/-- The full non-interactive constructor: checks first; only on success are
the result containers allocated and the run performed. -/
noncomputable def simplismaNI (lstsq : ℕ → (ℕ → ℕ → ℝ) → (ℕ → ℕ → ℝ) → ℕ → ℕ → ℝ)
    (m nv : ℕ) (X : ℕ → ℕ → ℝ) (npcArg : PyNum) (noise tol : ℝ) :
    Except SErr RunResult :=
  match simplismaCheck 2 false npcArg with
  | Except.error e => Except.error e
  | Except.ok k => Except.ok (runNI ⟨m, nv, k, X, noise, tol, lstsq⟩)

/-- Warnings the constructor can emit.  The source contains a single
warnings.warn call, for negative input values (line 119-120); the
reselection constructor records the warning the specification describes for
re-selected variables, which the source never emits. -/
inductive SWarn where
  | negativeValues : SWarn
  | reselection : SWarn
deriving DecidableEq

/-- Whether some in-range entry of the data is negative, the condition
np.min(X.data) < 0 of source line 119. -/
noncomputable def hasNegative (Pm : P) : Prop :=
  ∃ r ∈ Finset.range Pm.m, ∃ c ∈ Finset.range Pm.nv, Pm.X r c < 0

open Classical in
/-- The warnings emitted by one constructor call, source lines 119-120: only
the negative-values warning exists in the code. -/
noncomputable def warningsOf (Pm : P) : List SWarn :=
  if hasNegative Pm then [SWarn.negativeValues] else []

/-- Specification-side reconstruction of the data from a figures-of-merit
output: the product of the first j+1 columns of C with the first j+1 rows of
St, following the sentence Xhat = C[:, 0:j+1] . St[0:j+1]. -/
noncomputable def specXhat (F : FOM) (j : ℕ) : ℕ → ℕ → ℝ :=
  fun a b => ∑ t ∈ Finset.range (j + 1), F.Cn.entry a t * F.Stn.entry t b

/-- All loop matrices have their allocated worst-case shapes: npc by nv for
w, s, Pt and St, and m by npc for C. -/
def dimsOK (Pm : P) (st : RState) : Prop :=
  st.w.rows = Pm.npc ∧ st.w.cols = Pm.nv ∧ st.s.rows = Pm.npc ∧ st.s.cols = Pm.nv ∧
  st.Pt.rows = Pm.npc ∧ st.Pt.cols = Pm.nv ∧ st.C.rows = Pm.m ∧ st.C.cols = Pm.npc ∧
  st.St.rows = Pm.npc ∧ st.St.cols = Pm.nv

/-- A numpy masked 2-D array: dimensions, data, and a boolean mask. -/
structure MMat where
  rows : ℕ
  cols : ℕ
  data : ℕ → ℕ → ℝ
  mask : ℕ → ℕ → Bool

/-- Whether b holds for some index below n. -/
def anyBelow (n : ℕ) (b : ℕ → Bool) : Bool :=
  (List.range n).any b

/-- Whether b holds for every index below n. -/
def allBelow (n : ℕ) (b : ℕ → Bool) : Bool :=
  (List.range n).all b

/-- Column c is fully masked: np.all(mask, axis=-2), abstractanalysis line 191. -/
def colMasked (rowsize : ℕ) (mk : ℕ → ℕ → Bool) (c : ℕ) : Bool :=
  allBelow rowsize fun r => mk r c

/-- Row r is fully masked: np.all(mask, axis=-1), abstractanalysis line 192. -/
def rowMasked (colsize : ℕ) (mk : ℕ → ℕ → Bool) (r : ℕ) : Bool :=
  allBelow colsize fun c => mk r c

/-- Whether any entry of the mask is set: np.any(mask), abstractanalysis line 190. -/
def anyMasked (rowsize colsize : ℕ) (mk : ℕ → ℕ → Bool) : Bool :=
  anyBelow rowsize fun r => anyBelow colsize fun c => mk r c

/-- The helper _get_masked_rc, abstractanalysis lines 189-196: the pair of
fully-masked row and column predicates, or all-false predicates when the mask
is empty. -/
def getMaskedRC (rowsize colsize : ℕ) (mk : ℕ → ℕ → Bool) : (ℕ → Bool) × (ℕ → Bool) :=
  if anyMasked rowsize colsize mk then
    (fun r => rowMasked colsize mk r, fun c => colMasked rowsize mk c)
  else (fun _ => false, fun _ => false)

/-- Indices below n whose bad flag is not set, in increasing order: the
effect of boolean-mask indexing with the negated flag. -/
def keepList (n : ℕ) (bad : ℕ → Bool) : List ℕ :=
  (List.range n).filter fun i => !bad i

/-- Position of index t within the kept indices: the number of kept indices
strictly below t. -/
def rankKeep (bad : ℕ → Bool) (t : ℕ) : ℕ :=
  (keepList t bad).length

/-- The helper _remove_masked_data, abstractanalysis lines 198-227: keeps
only the columns that are not fully masked and then only the rows that are
not fully masked, returning the plain stripped data (the mask is destroyed). -/
def removeMaskedData (Xm : MMat) : Mat :=
  let rc := getMaskedRC Xm.rows Xm.cols Xm.mask
  let rowsKeep := keepList Xm.rows rc.1
  let colsKeep := keepList Xm.cols rc.2
  ⟨rowsKeep.length, colsKeep.length,
    fun r c => Xm.data (rowsKeep.getD r 0) (colsKeep.getD c 0)⟩

/-- A plain matrix viewed as an unmasked masked array (the stripped dataset:
its mask was destroyed at abstractanalysis line 223). -/
def toMMat (D : Mat) : MMat :=
  ⟨D.rows, D.cols, D.entry, fun _ _ => false⟩

/-- The axis argument of _restore_masked_data: the column stage runs for
axis in (-1, 1, both), the row stage for axis in (-2, 0, both). -/
inductive Axis where
  | colsAxis : Axis
  | rowsAxis : Axis
  | both : Axis
deriving DecidableEq

/-- The helper _restore_masked_data, abstractanalysis lines 229-264.  M and N
are read from D once, before either stage (line 239).  The column stage
builds a masked zero array of shape (M, colsize), writes D into the unmasked
columns and marks the masked columns; the row stage builds a masked zero
array of shape (rowsize, N) with the stale N, writes the current array into
the unmasked rows and marks the masked rows.  A numpy slice assignment whose
right-hand side does not have the exact shape of the slot raises a
ValueError, modelled as error. -/
def restoreMaskedData (rowsize colsize : ℕ) (mk : ℕ → ℕ → Bool) (D : MMat)
    (axis : Axis) : Except Unit MMat :=
  let rc := getMaskedRC rowsize colsize mk
  let mr := rc.1
  let mc := rc.2
  let M := D.rows
  let N := D.cols
  let step1 : Except Unit MMat :=
    if axis = Axis.colsAxis ∨ axis = Axis.both then
      if anyBelow colsize mc then
        if D.cols = (keepList colsize mc).length then
          Except.ok ⟨M, colsize,
            (fun r c => if mc c then 0 else D.data r (rankKeep mc c)),
            (fun r c => if mc c then true else D.mask r (rankKeep mc c))⟩
        else Except.error ()
      else Except.ok D
    else Except.ok D
  match step1 with
  | Except.error e => Except.error e
  | Except.ok D1 =>
    if axis = Axis.rowsAxis ∨ axis = Axis.both then
      if anyBelow rowsize mr then
        if D1.rows = (keepList rowsize mr).length ∧ D1.cols = N then
          Except.ok ⟨rowsize, N,
            (fun r c => if mr r then 0 else D1.data (rankKeep mr r) c),
            (fun r c => if mr r then true else D1.mask (rankKeep mr r) c)⟩
        else Except.error ()
      else Except.ok D1
    else Except.ok D1

/-- Least-squares stub whose solution is a single row of ones followed by
zero rows; on the all-ones data matrix below this is an exact least-squares
solution at every iteration. -/
noncomputable def lstsqOnes : ℕ → (ℕ → ℕ → ℝ) → (ℕ → ℕ → ℝ) → ℕ → ℕ → ℝ :=
  fun _ _ _ r _ => if r = 0 then 1 else 0

/-- Least-squares stub returning the zero solution, used to drive a run in
which the reconstruction never improves and the tolerance never fires. -/
noncomputable def lstsqZero : ℕ → (ℕ → ℕ → ℝ) → (ℕ → ℕ → ℝ) → ℕ → ℕ → ℝ :=
  fun _ _ _ _ _ => 0

/-- Concrete run parameters: 2 by 2 all-ones data, noise 0, tol 0.1, npc 2,
with the exact solver stub: the fit is perfect from iteration 0 on. -/
noncomputable def PA : P :=
  ⟨2, 2, 2, fun _ _ => 1, 0, 1 / 10, lstsqOnes⟩

/-- Concrete run parameters: as PA but with the zero solver stub, so the
reconstruction error stays at 100 percent and the tolerance never fires. -/
noncomputable def PB : P :=
  ⟨2, 2, 2, fun _ _ => 1, 0, 1 / 10, lstsqZero⟩

/-- A 2 by 2 masked input whose mask covers exactly row 0 and column 0, both
entirely: the failing input for the masked-data round trip. -/
def XmBug : MMat :=
  ⟨2, 2, fun _ _ => 5, fun r c => decide (r = 0 ∨ c = 0)⟩

/-- A 1 by 1 zero matrix used to instantiate witnesses. -/
noncomputable def Mzero : Mat :=
  ⟨1, 1, fun _ _ => 0⟩

/-- The scanning argmax returns the first index attaining the maximum:
later indices replace the current best only on strict improvement. -/
theorem npArgmax_isFirstArgmax (v : ℕ → ℝ) : ∀ n, 0 < n → isFirstArgmax v n (npArgmax v n) := by
  intro n
  induction n with
  | zero => exact fun h => absurd h (Nat.lt_irrefl 0)
  | succ t ih =>
    intro _
    cases t with
    | zero =>
      refine ⟨Nat.zero_lt_one, ?_, ?_⟩
      · intro i hi
        have hi0 : i = 0 := by omega
        subst hi0
        simp [npArgmax]
      · intro i hi
        simp [npArgmax] at hi
    | succ u =>
      obtain ⟨hk, hle, hlt⟩ := ih (Nat.succ_pos u)
      by_cases h : v (npArgmax v (u + 1)) < v (u + 1)
      · rw [show npArgmax v (u + 2) = if v (npArgmax v (u + 1)) < v (u + 1) then u + 1
            else npArgmax v (u + 1) from rfl, if_pos h]
        refine ⟨by omega, ?_, ?_⟩
        · intro i hi
          rcases Nat.lt_succ_iff_lt_or_eq.mp hi with hi2 | hi2
          · exact le_trans (hle i hi2) (le_of_lt h)
          · subst hi2
            exact le_rfl
        · intro i hi
          exact lt_of_le_of_lt (hle i hi) h
      · rw [show npArgmax v (u + 2) = if v (npArgmax v (u + 1)) < v (u + 1) then u + 1
            else npArgmax v (u + 1) from rfl, if_neg h]
        refine ⟨by omega, ?_, hlt⟩
        intro i hi
        rcases Nat.lt_succ_iff_lt_or_eq.mp hi with hi2 | hi2
        · exact hle i hi2
        · subst hi2
          exact not_lt.mp h

/-- The scanning maximum bounds every value in range and is attained. -/
theorem npMax_isMax (v : ℕ → ℝ) :
    ∀ n, 0 < n → (∀ i < n, v i ≤ npMax v n) ∧ ∃ i, i < n ∧ npMax v n = v i := by
  intro n
  induction n with
  | zero => exact fun h => absurd h (Nat.lt_irrefl 0)
  | succ t ih =>
    intro _
    cases t with
    | zero =>
      refine ⟨?_, 0, Nat.zero_lt_one, rfl⟩
      intro i hi
      have hi0 : i = 0 := by omega
      subst hi0
      exact le_rfl
    | succ u =>
      obtain ⟨hle, i0, hi0, hat⟩ := ih (Nat.succ_pos u)
      have hstep : npMax v (u + 2) = max (npMax v (u + 1)) (v (u + 1)) := rfl
      constructor
      · intro i hi
        rw [hstep]
        rcases Nat.lt_succ_iff_lt_or_eq.mp hi with hi2 | hi2
        · exact le_trans (hle i hi2) (le_max_left _ _)
        · subst hi2
          exact le_max_right _ _
      · rw [hstep]
        rcases le_total (npMax v (u + 1)) (v (u + 1)) with hcmp | hcmp
        · exact ⟨u + 1, by omega, max_eq_right hcmp⟩
        · exact ⟨i0, by omega, by rw [max_eq_left hcmp, hat]⟩

/-- A double sum of squares is nonnegative. -/
theorem sum2_sq_nonneg (m nv : ℕ) (A : ℕ → ℕ → ℝ) :
    0 ≤ sum2 m nv fun r c => A r c ^ 2 := by
  unfold sum2
  positivity

/-- The squared Frobenius norm is the plain double sum of squares. -/
theorem normF_sq (m nv : ℕ) (A : ℕ → ℕ → ℝ) :
    normF m nv A ^ 2 = sum2 m nv fun r c => A r c ^ 2 :=
  Real.sq_sqrt (sum2_sq_nonneg m nv A)

/-- Row 0 of the weight matrix after iteration 0. -/
theorem iter0_w_entry (Pm : P) (st : RState) (c : ℕ) :
    (iter0 Pm st).w.entry 0 c =
      lamda Pm c ^ 2 / (mean Pm c ^ 2 + (std Pm c + alphaV Pm) ^ 2) := rfl

/-- Row 0 of the purity matrix after iteration 0. -/
theorem iter0_Pt_entry (Pm : P) (st : RState) (c : ℕ) :
    (iter0 Pm st).Pt.entry 0 c = pPur Pm c * (iter0 Pm st).w.entry 0 c := rfl

/-- The first selected index is the scanning argmax of purity row 0. -/
theorem iter0_maxPIndex (Pm : P) (st : RState) :
    (iter0 Pm st).maxPIndex 0 =
      npArgmax (fun c => (iter0 Pm st).Pt.entry 0 c) Pm.nv := rfl

/-- Row j of the weight matrix after iteration j is the determinant weight
computed from the previous selections. -/
theorem stepJ_w_entry (Pm : P) (j : ℕ) (st : RState) (c : ℕ) :
    (stepJ Pm j st).w.entry j c = wDet Pm j st.maxPIndex c := by
  simp [stepJ]

/-- Row j of the purity matrix after iteration j. -/
theorem stepJ_Pt_entry (Pm : P) (j : ℕ) (st : RState) (c : ℕ) :
    (stepJ Pm j st).Pt.entry j c = pPur Pm c * (stepJ Pm j st).w.entry j c := by
  simp [stepJ]

/-- The index selected at iteration j is the scanning argmax of purity row j. -/
theorem stepJ_maxPIndex_self (Pm : P) (j : ℕ) (st : RState) :
    (stepJ Pm j st).maxPIndex j =
      npArgmax (fun c => (stepJ Pm j st).Pt.entry j c) Pm.nv := by
  simp [stepJ]

/-- Earlier selections are untouched by iteration j. -/
theorem stepJ_maxPIndex_ne (Pm : P) (j : ℕ) (st : RState) (k : ℕ) (h : k ≠ j) :
    (stepJ Pm j st).maxPIndex k = st.maxPIndex k := by
  simp [stepJ, h]

/-- Claim C1: at the first iteration, with mu the per-variable mean, sigma
the per-variable standard deviation and alpha equal to noise over 100 times
the maximum of mu, the weight row is w 0 = (mu^2 + sigma^2) divided by
(mu^2 + (sigma + alpha)^2), the purity row is Pt 0 = sigma over (mu + alpha)
times w 0, and the first selected purest-variable index is the argmax of
Pt 0, taking the first index on ties. -/
theorem claim_C1 (Pm : P) (c : ℕ) (hn : 0 < Pm.nv) :
    alphaV Pm = Pm.noise / 100 * npMax (fun t => mean Pm t) Pm.nv ∧
    (∀ t < Pm.nv, mean Pm t ≤ npMax (fun t => mean Pm t) Pm.nv) ∧
    (∃ t, t < Pm.nv ∧ npMax (fun t => mean Pm t) Pm.nv = mean Pm t) ∧
    (stateAt Pm 0).w.entry 0 c =
      (mean Pm c ^ 2 + std Pm c ^ 2) / (mean Pm c ^ 2 + (std Pm c + alphaV Pm) ^ 2) ∧
    (stateAt Pm 0).Pt.entry 0 c =
      std Pm c / (mean Pm c + alphaV Pm) * (stateAt Pm 0).w.entry 0 c ∧
    isFirstArgmax (fun t => (stateAt Pm 0).Pt.entry 0 t) Pm.nv
      ((stateAt Pm 0).maxPIndex 0) := by
  obtain ⟨hmle, hmex⟩ := npMax_isMax (fun t => mean Pm t) Pm.nv hn
  refine ⟨rfl, hmle, hmex, ?_, ?_, ?_⟩
  · rw [show stateAt Pm 0 = iter0 Pm (initState Pm) from rfl, iter0_w_entry]
    unfold lamda
    rw [Real.sq_sqrt (by positivity)]
  · exact iter0_Pt_entry Pm (initState Pm) c
  · exact npArgmax_isFirstArgmax (fun t => (stateAt Pm 0).Pt.entry 0 t) Pm.nv hn

/-- Witness for claim C1 at the concrete parameters PA and variable 0. -/
theorem claim_C1_witness :
    0 < PA.nv ∧
    (alphaV PA = PA.noise / 100 * npMax (fun t => mean PA t) PA.nv ∧
     (∀ t < PA.nv, mean PA t ≤ npMax (fun t => mean PA t) PA.nv) ∧
     (∃ t, t < PA.nv ∧ npMax (fun t => mean PA t) PA.nv = mean PA t) ∧
     (stateAt PA 0).w.entry 0 0 =
       (mean PA 0 ^ 2 + std PA 0 ^ 2) / (mean PA 0 ^ 2 + (std PA 0 + alphaV PA) ^ 2) ∧
     (stateAt PA 0).Pt.entry 0 0 =
       std PA 0 / (mean PA 0 + alphaV PA) * (stateAt PA 0).w.entry 0 0 ∧
     isFirstArgmax (fun t => (stateAt PA 0).Pt.entry 0 t) PA.nv
       ((stateAt PA 0).maxPIndex 0)) :=
  ⟨by decide, claim_C1 PA 0 (by decide)⟩

/-- Claim C2: for every iteration j greater than 0 and every candidate
variable i, the weight w j i equals the determinant of the (j+1) by (j+1)
sub-matrix of the dispersion matrix COO (one over the observation count
times Xscaled transposed times Xscaled) obtained by indexing its rows and
columns at i followed by the j previously selected indices; the purity row
is Pt j = p times w j, and the j-th purest index is the argmax of row j of
Pt over all variables, no previously selected index excluded, first index
on ties. -/
theorem claim_C2 (Pm : P) (j i : ℕ) (h1 : 1 ≤ j) (hn : 0 < Pm.nv) :
    (∀ a b : Fin Pm.nv, COO Pm a b = (1 / (Pm.m : ℝ)) *
      ((Matrix.of fun (r : Fin Pm.m) (c : Fin Pm.nv) => Xscaled Pm r c).transpose *
        (Matrix.of fun (r : Fin Pm.m) (c : Fin Pm.nv) => Xscaled Pm r c)) a b) ∧
    (stateAt Pm j).w.entry j i =
      Matrix.det (Matrix.of fun a b : Fin (j + 1) =>
        COO Pm (idxList i (stateAt Pm j).maxPIndex (a : ℕ))
          (idxList i (stateAt Pm j).maxPIndex (b : ℕ))) ∧
    (stateAt Pm j).Pt.entry j i = pPur Pm i * (stateAt Pm j).w.entry j i ∧
    isFirstArgmax (fun t => (stateAt Pm j).Pt.entry j t) Pm.nv
      ((stateAt Pm j).maxPIndex j) := by
  obtain ⟨k, rfl⟩ : ∃ k, j = k + 1 := ⟨j - 1, by omega⟩
  have hstate : stateAt Pm (k + 1) = stepJ Pm (k + 1) (stateAt Pm k) := rfl
  have hidx : ∀ a : Fin (k + 1 + 1),
      idxList i (stateAt Pm (k + 1)).maxPIndex (a : ℕ) =
        idxList i (stateAt Pm k).maxPIndex (a : ℕ) := by
    intro a
    rcases ha : (a : ℕ) with _ | t
    · rfl
    · have ht : t < k + 1 := by
        have := a.isLt
        omega
      show (stateAt Pm (k + 1)).maxPIndex t = (stateAt Pm k).maxPIndex t
      rw [hstate]
      exact stepJ_maxPIndex_ne Pm (k + 1) (stateAt Pm k) t (by omega)
  refine ⟨?_, ?_, ?_, ?_⟩
  · intro a b
    unfold COO
    congr 1
    rw [Matrix.mul_apply]
    rw [← Fin.sum_univ_eq_sum_range
      (fun t => Xscaled Pm t (a : ℕ) * Xscaled Pm t (b : ℕ)) Pm.m]
    apply Finset.sum_congr rfl
    intro x _
    simp [Matrix.transpose_apply]
  · have hw : (stateAt Pm (k + 1)).w.entry (k + 1) i =
        wDet Pm (k + 1) (stateAt Pm k).maxPIndex i :=
      stepJ_w_entry Pm (k + 1) (stateAt Pm k) i
    rw [hw]
    unfold wDet
    simp only [hidx]
  · exact stepJ_Pt_entry Pm (k + 1) (stateAt Pm k) i
  · have hsel : (stateAt Pm (k + 1)).maxPIndex (k + 1) =
        npArgmax (fun t => (stateAt Pm (k + 1)).Pt.entry (k + 1) t) Pm.nv :=
      stepJ_maxPIndex_self Pm (k + 1) (stateAt Pm k)
    rw [hsel]
    exact npArgmax_isFirstArgmax (fun t => (stateAt Pm (k + 1)).Pt.entry (k + 1) t) Pm.nv hn

/-- Witness for claim C2 at the concrete parameters PB, iteration 1 and
candidate variable 0. -/
theorem claim_C2_witness :
    (1 ≤ 1 ∧ 0 < PB.nv) ∧
    (stateAt PB 1).w.entry 1 0 =
      Matrix.det (Matrix.of fun a b : Fin 2 =>
        COO PB (idxList 0 (stateAt PB 1).maxPIndex (a : ℕ))
          (idxList 0 (stateAt PB 1).maxPIndex (b : ℕ))) ∧
    isFirstArgmax (fun t => (stateAt PB 1).Pt.entry 1 t) PB.nv
      ((stateAt PB 1).maxPIndex 1) :=
  ⟨⟨le_refl 1, by decide⟩,
   (claim_C2 PB 1 0 (le_refl 1) (by decide)).2.1,
   (claim_C2 PB 1 0 (le_refl 1) (by decide)).2.2.2⟩

/-- Claim C3: figures_of_merit sets column j of C to the column of X at the
selected index maxPIndex j, overwrites rows 0 to j of St with the
least-squares solution fitting the first j+1 columns of C against X, and
returns r_square = 1 minus the squared residual norm over the squared data
norm together with the standard deviation of the residual, where Xhat is
the product of the first j+1 columns of C with the first j+1 rows of St. -/
theorem claim_C3 (lstsq : ℕ → (ℕ → ℕ → ℝ) → (ℕ → ℕ → ℝ) → ℕ → ℕ → ℝ)
    (m nv : ℕ) (X : ℕ → ℕ → ℝ) (mpi : ℕ → ℕ) (C St : Mat) (j r c k l : ℕ)
    (hk : k ≤ j) (hl : j < l) (hc : c ≠ j) :
    (figures_of_merit lstsq m nv X mpi C St j).Cn.entry r j = X r (mpi j) ∧
    (figures_of_merit lstsq m nv X mpi C St j).Cn.entry r c = C.entry r c ∧
    (figures_of_merit lstsq m nv X mpi C St j).Stn.entry k c =
      lstsq (j + 1) (figures_of_merit lstsq m nv X mpi C St j).Cn.entry X k c ∧
    (figures_of_merit lstsq m nv X mpi C St j).Stn.entry l c = St.entry l c ∧
    (figures_of_merit lstsq m nv X mpi C St j).rsquare =
      1 - sum2 m nv (fun a b =>
            (specXhat (figures_of_merit lstsq m nv X mpi C St j) j a b - X a b) ^ 2) /
          sum2 m nv (fun a b => X a b ^ 2) ∧
    (figures_of_merit lstsq m nv X mpi C St j).stdevRes =
      stdAll m nv (fun a b =>
        specXhat (figures_of_merit lstsq m nv X mpi C St j) j a b - X a b) := by
  refine ⟨?_, ?_, ?_, ?_, ?_, rfl⟩
  · show (if j = j then X r (mpi j) else C.entry r j) = X r (mpi j)
    rw [if_pos rfl]
  · show (if c = j then X r (mpi j) else C.entry r c) = C.entry r c
    rw [if_neg hc]
  · show (if k ≤ j then
        lstsq (j + 1) (figures_of_merit lstsq m nv X mpi C St j).Cn.entry X k c
      else St.entry k c) = _
    rw [if_pos hk]
  · show (if l ≤ j then
        lstsq (j + 1) (figures_of_merit lstsq m nv X mpi C St j).Cn.entry X l c
      else St.entry l c) = St.entry l c
    rw [if_neg (not_le.mpr hl)]
  · show 1 - normF m nv (fun a b =>
        specXhat (figures_of_merit lstsq m nv X mpi C St j) j a b - X a b) ^ 2 /
          normF m nv X ^ 2 = _
    rw [normF_sq, normF_sq]

/-- Witness for claim C3 at a concrete 1 by 1 instantiation. -/
theorem claim_C3_witness :
    ((0 : ℕ) ≤ 0 ∧ 0 < 1 ∧ (1 : ℕ) ≠ 0) ∧
    (figures_of_merit lstsqZero 1 1 PB.X (fun _ => 0) Mzero Mzero 0).Cn.entry 0 0 =
      PB.X 0 0 ∧
    (figures_of_merit lstsqZero 1 1 PB.X (fun _ => 0) Mzero Mzero 0).Stn.entry 1 1 =
      Mzero.entry 1 1 :=
  ⟨⟨le_refl 0, Nat.zero_lt_one, one_ne_zero⟩,
   (claim_C3 lstsqZero 1 1 PB.X (fun _ => 0) Mzero Mzero 0 0 1 0 1 (le_refl 0)
      Nat.zero_lt_one one_ne_zero).1,
   (claim_C3 lstsqZero 1 1 PB.X (fun _ => 0) Mzero Mzero 0 0 1 0 1 (le_refl 0)
      Nat.zero_lt_one one_ne_zero).2.2.2.1⟩

/-- One unfolding step of the non-interactive loop. -/
theorem runLoop_succ (Pm : P) (fuel j : ℕ) (st : RState) :
    runLoop Pm (fuel + 1) j st =
      if j = Pm.npc then ⟨j, false, st.Pt, st.s, st.C, st.St⟩
      else if 1 - (stepJ Pm j st).rsquare < Pm.tol / 100 then
        ⟨j + 1, true, ⟨j + 1, (stepJ Pm j st).Pt.cols, (stepJ Pm j st).Pt.entry⟩,
          ⟨j + 1, (stepJ Pm j st).s.cols, (stepJ Pm j st).s.entry⟩,
          ⟨(stepJ Pm j st).C.rows, j + 1, (stepJ Pm j st).C.entry⟩,
          ⟨j + 1, (stepJ Pm j st).St.cols, (stepJ Pm j st).St.entry⟩⟩
      else if j + 1 = Pm.npc then
        ⟨j + 1, false, (stepJ Pm j st).Pt, (stepJ Pm j st).s, (stepJ Pm j st).C,
          (stepJ Pm j st).St⟩
      else runLoop Pm fuel (j + 1) (stepJ Pm j st) := rfl

/-- Iteration steps preserve the allocated shapes of all matrices. -/
theorem stepJ_dimsOK (Pm : P) (j : ℕ) (st : RState) (h : dimsOK Pm st) :
    dimsOK Pm (stepJ Pm j st) := h

/-- Every state of the trajectory keeps the allocated worst-case shapes. -/
theorem stateAt_dimsOK (Pm : P) : ∀ j, dimsOK Pm (stateAt Pm j) := by
  intro j
  induction j with
  | zero => exact ⟨rfl, rfl, rfl, rfl, rfl, rfl, rfl, rfl, rfl, rfl⟩
  | succ t ih => exact stepJ_dimsOK Pm (t + 1) (stateAt Pm t) ih

/-- If the tolerance criterion never fires from iteration j0 on, the loop
runs to the maximum component count and does not converge. -/
theorem runLoop_maxReached (Pm : P) :
    ∀ fuel j0, 1 ≤ j0 → j0 + fuel = Pm.npc →
      (∀ k, j0 ≤ k → ¬ critAt Pm k) →
      (runLoop Pm fuel j0 (stateAt Pm (j0 - 1))).count = Pm.npc ∧
      (runLoop Pm fuel j0 (stateAt Pm (j0 - 1))).converged = false := by
  intro fuel
  induction fuel with
  | zero =>
    intro j0 h1 hsum hnc
    constructor
    · show j0 = Pm.npc
      omega
    · rfl
  | succ fuel ih =>
    intro j0 h1 hsum hnc
    have hne : j0 ≠ Pm.npc := by omega
    have hstep : stepJ Pm j0 (stateAt Pm (j0 - 1)) = stateAt Pm j0 := by
      obtain ⟨t, rfl⟩ : ∃ t, j0 = t + 1 := ⟨j0 - 1, by omega⟩
      simp [stateAt]
    have hnc2 : ¬ (1 - (stateAt Pm j0).rsquare < Pm.tol / 100) := hnc j0 (le_refl j0)
    rw [runLoop_succ, if_neg hne, hstep, if_neg hnc2]
    by_cases hmax : j0 + 1 = Pm.npc
    · rw [if_pos hmax]
      exact ⟨hmax, rfl⟩
    · rw [if_neg hmax]
      exact ih (j0 + 1) (by omega) (by omega) (fun k hk => hnc k (by omega))

/-- If the tolerance criterion first fires at iteration j (with iterations
j0 to j-1 all failing it), the loop stops right after iteration j with the
converged flag set and all outputs sliced to j+1 components. -/
theorem runLoop_converged (Pm : P) :
    ∀ fuel j0 j, 1 ≤ j0 → j0 + fuel = Pm.npc → j0 ≤ j → j < Pm.npc →
      (∀ k, j0 ≤ k → k < j → ¬ critAt Pm k) → critAt Pm j →
      (runLoop Pm fuel j0 (stateAt Pm (j0 - 1))).count = j + 1 ∧
      (runLoop Pm fuel j0 (stateAt Pm (j0 - 1))).converged = true ∧
      (runLoop Pm fuel j0 (stateAt Pm (j0 - 1))).Pt.rows = j + 1 ∧
      (runLoop Pm fuel j0 (stateAt Pm (j0 - 1))).Pt.cols = Pm.nv ∧
      (runLoop Pm fuel j0 (stateAt Pm (j0 - 1))).s.rows = j + 1 ∧
      (runLoop Pm fuel j0 (stateAt Pm (j0 - 1))).s.cols = Pm.nv ∧
      (runLoop Pm fuel j0 (stateAt Pm (j0 - 1))).C.rows = Pm.m ∧
      (runLoop Pm fuel j0 (stateAt Pm (j0 - 1))).C.cols = j + 1 ∧
      (runLoop Pm fuel j0 (stateAt Pm (j0 - 1))).St.rows = j + 1 ∧
      (runLoop Pm fuel j0 (stateAt Pm (j0 - 1))).St.cols = Pm.nv := by
  intro fuel
  induction fuel with
  | zero =>
    intro j0 j h1 hsum hle hlt hfirst hcrit
    exfalso
    omega
  | succ fuel ih =>
    intro j0 j h1 hsum hle hlt hfirst hcrit
    have hne : j0 ≠ Pm.npc := by omega
    have hstep : stepJ Pm j0 (stateAt Pm (j0 - 1)) = stateAt Pm j0 := by
      obtain ⟨t, rfl⟩ : ∃ t, j0 = t + 1 := ⟨j0 - 1, by omega⟩
      simp [stateAt]
    rw [runLoop_succ, if_neg hne, hstep]
    rcases eq_or_lt_of_le hle with heq | hlt2
    · subst heq
      have hcrit2 : 1 - (stateAt Pm j0).rsquare < Pm.tol / 100 := hcrit
      rw [if_pos hcrit2]
      obtain ⟨-, -, -, hscols, -, hptcols, hCrows, -, -, hStcols⟩ := stateAt_dimsOK Pm j0
      exact ⟨rfl, rfl, rfl, hptcols, rfl, hscols, hCrows, rfl, rfl, hStcols⟩
    · have hncrit : ¬ (1 - (stateAt Pm j0).rsquare < Pm.tol / 100) :=
        hfirst j0 (le_refl j0) hlt2
      rw [if_neg hncrit, if_neg (show ¬ j0 + 1 = Pm.npc by omega)]
      exact ih (j0 + 1) j (by omega) (by omega) hlt2 hlt
        (fun k hk1 hk2 => hfirst k (by omega) hk2) hcrit

/-- The loop only ever slices in the component dimension: the observation
dimension of C and the variable dimension of St, Pt and s are preserved, the
component dimension of every output matches the returned count, and the
count never exceeds the configured maximum. -/
theorem runLoop_shape (Pm : P) :
    ∀ fuel j0 st, dimsOK Pm st → j0 + fuel = Pm.npc →
      (runLoop Pm fuel j0 st).count ≤ Pm.npc ∧
      (runLoop Pm fuel j0 st).C.rows = Pm.m ∧
      (runLoop Pm fuel j0 st).C.cols = (runLoop Pm fuel j0 st).count ∧
      (runLoop Pm fuel j0 st).St.rows = (runLoop Pm fuel j0 st).count ∧
      (runLoop Pm fuel j0 st).St.cols = Pm.nv ∧
      (runLoop Pm fuel j0 st).Pt.rows = (runLoop Pm fuel j0 st).count ∧
      (runLoop Pm fuel j0 st).Pt.cols = Pm.nv ∧
      (runLoop Pm fuel j0 st).s.rows = (runLoop Pm fuel j0 st).count ∧
      (runLoop Pm fuel j0 st).s.cols = Pm.nv := by
  intro fuel
  induction fuel with
  | zero =>
    intro j0 st hd hsum
    obtain ⟨-, -, hsr, hsc, hptr, hptc, hcr, hcc, hstr, hstc⟩ := hd
    refine ⟨?_, hcr, ?_, ?_, hstc, ?_, hptc, ?_, hsc⟩
    · show j0 ≤ Pm.npc
      omega
    · show st.C.cols = j0
      omega
    · show st.St.rows = j0
      omega
    · show st.Pt.rows = j0
      omega
    · show st.s.rows = j0
      omega
  | succ fuel ih =>
    intro j0 st hd hsum
    rw [runLoop_succ]
    by_cases hj : j0 = Pm.npc
    · rw [if_pos hj]
      obtain ⟨-, -, hsr, hsc, hptr, hptc, hcr, hcc, hstr, hstc⟩ := hd
      refine ⟨?_, hcr, ?_, ?_, hstc, ?_, hptc, ?_, hsc⟩
      · show j0 ≤ Pm.npc
        omega
      · show st.C.cols = j0
        omega
      · show st.St.rows = j0
        omega
      · show st.Pt.rows = j0
        omega
      · show st.s.rows = j0
        omega
    · rw [if_neg hj]
      have hd2 : dimsOK Pm (stepJ Pm j0 st) := stepJ_dimsOK Pm j0 st hd
      have hd3 := hd2
      obtain ⟨-, -, hsr, hsc, hptr, hptc, hcr, hcc, hstr, hstc⟩ := hd3
      by_cases hc : 1 - (stepJ Pm j0 st).rsquare < Pm.tol / 100
      · rw [if_pos hc]
        refine ⟨?_, hcr, rfl, rfl, hstc, rfl, hptc, rfl, hsc⟩
        show j0 + 1 ≤ Pm.npc
        omega
      · rw [if_neg hc]
        by_cases hm : j0 + 1 = Pm.npc
        · rw [if_pos hm]
          refine ⟨?_, hcr, ?_, ?_, hstc, ?_, hptc, ?_, hsc⟩
          · show j0 + 1 ≤ Pm.npc
            omega
          · show (stepJ Pm j0 st).C.cols = j0 + 1
            omega
          · show (stepJ Pm j0 st).St.rows = j0 + 1
            omega
          · show (stepJ Pm j0 st).Pt.rows = j0 + 1
            omega
          · show (stepJ Pm j0 st).s.rows = j0 + 1
            omega
        · rw [if_neg hm]
          exact ih (j0 + 1) (stepJ Pm j0 st) hd2 (by omega)

/-- Claim C4, amended: in non-interactive mode, when the figures of merit of
an accepted iteration j greater than or equal to 1 first satisfy
(1 - r_square) < tol / 100, the run ends in the terminal CONVERGED state and
Pt, St, s and C are sliced to the accepted component count j + 1 at that
iteration boundary.  (Iteration 0 performs no tolerance check, see the
counterexample.) -/
theorem claim_C4 (Pm : P) (j : ℕ) (h1 : 1 ≤ j) (hj : j < Pm.npc)
    (hfirst : ∀ k, 1 ≤ k → k < j → ¬ critAt Pm k) (hcrit : critAt Pm j) :
    (runNI Pm).count = j + 1 ∧ (runNI Pm).converged = true ∧
    (runNI Pm).reason = TermReason.converged ∧
    (runNI Pm).Pt.rows = j + 1 ∧ (runNI Pm).Pt.cols = Pm.nv ∧
    (runNI Pm).s.rows = j + 1 ∧ (runNI Pm).s.cols = Pm.nv ∧
    (runNI Pm).C.rows = Pm.m ∧ (runNI Pm).C.cols = j + 1 ∧
    (runNI Pm).St.rows = j + 1 ∧ (runNI Pm).St.cols = Pm.nv := by
  obtain ⟨hcnt, hcv, hp1, hp2, hs1, hs2, hc1, hc2, hst1, hst2⟩ :=
    runLoop_converged Pm (Pm.npc - 1) 1 j (le_refl 1) (by omega) h1 hj hfirst hcrit
  have hcv2 : (runNI Pm).converged = true := hcv
  refine ⟨hcnt, hcv, ?_, hp1, hp2, hs1, hs2, hc1, hc2, hst1, hst2⟩
  simp [RunResult.reason, hcv2]

/-- Claim C5: in non-interactive mode, if the tolerance criterion never
fires, the run terminates in the MAX_REACHED state exactly when the selected
component count reaches the configured maximum, so at most npc components
are ever selected. -/
theorem claim_C5 (Pm : P) (h1 : 1 ≤ Pm.npc) (hnever : ∀ k, 1 ≤ k → ¬ critAt Pm k) :
    (runNI Pm).count = Pm.npc ∧ (runNI Pm).count ≤ Pm.npc ∧
    (runNI Pm).converged = false ∧ (runNI Pm).reason = TermReason.maxReached := by
  obtain ⟨hcnt, hcv⟩ :=
    runLoop_maxReached Pm (Pm.npc - 1) 1 (le_refl 1) (by omega) (fun k hk => hnever k hk)
  have hcv2 : (runNI Pm).converged = false := hcv
  refine ⟨hcnt, le_of_eq hcnt, hcv, ?_⟩
  simp [RunResult.reason, hcv2]

/-- Claim C7: after any completed non-interactive run, C has exactly m rows
and St has exactly nv columns; the matrices are only sliced in the component
dimension, whose size equals the returned component count, itself at most
the allocated worst case npc. -/
theorem claim_C7 (Pm : P) (h1 : 1 ≤ Pm.npc) :
    (runNI Pm).C.rows = Pm.m ∧ (runNI Pm).St.cols = Pm.nv ∧
    (runNI Pm).C.cols = (runNI Pm).count ∧
    (runNI Pm).St.rows = (runNI Pm).count ∧
    (runNI Pm).Pt.rows = (runNI Pm).count ∧ (runNI Pm).Pt.cols = Pm.nv ∧
    (runNI Pm).s.rows = (runNI Pm).count ∧ (runNI Pm).s.cols = Pm.nv ∧
    (runNI Pm).count ≤ Pm.npc := by
  obtain ⟨h1a, h2a, h3a, h4a, h5a, h6a, h7a, h8a, h9a⟩ :=
    runLoop_shape Pm (Pm.npc - 1) 1 (stateAt Pm 0) (stateAt_dimsOK Pm 0) (by omega)
  exact ⟨h2a, h5a, h3a, h4a, h6a, h7a, h8a, h9a, h1a⟩

/-- Witness for claim C7 at the concrete parameters PB. -/
theorem claim_C7_witness :
    1 ≤ PB.npc ∧
    ((runNI PB).C.rows = PB.m ∧ (runNI PB).St.cols = PB.nv ∧
     (runNI PB).C.cols = (runNI PB).count ∧
     (runNI PB).St.rows = (runNI PB).count ∧
     (runNI PB).Pt.rows = (runNI PB).count ∧ (runNI PB).Pt.cols = PB.nv ∧
     (runNI PB).s.rows = (runNI PB).count ∧ (runNI PB).s.cols = PB.nv ∧
     (runNI PB).count ≤ PB.npc) :=
  ⟨by decide, claim_C7 PB (by decide)⟩

/-- Column j of the updated concentration matrix holds the selected column
of the data. -/
theorem fom_Cn_at (lstsq : ℕ → (ℕ → ℕ → ℝ) → (ℕ → ℕ → ℝ) → ℕ → ℕ → ℝ)
    (m nv : ℕ) (X : ℕ → ℕ → ℝ) (mpi : ℕ → ℕ) (C St : Mat) (j r : ℕ) :
    (figures_of_merit lstsq m nv X mpi C St j).Cn.entry r j = X r (mpi j) := by
  show (if j = j then X r (mpi j) else C.entry r j) = X r (mpi j)
  rw [if_pos rfl]

/-- Other columns of the concentration matrix are untouched. -/
theorem fom_Cn_ne (lstsq : ℕ → (ℕ → ℕ → ℝ) → (ℕ → ℕ → ℝ) → ℕ → ℕ → ℝ)
    (m nv : ℕ) (X : ℕ → ℕ → ℝ) (mpi : ℕ → ℕ) (C St : Mat) (j r c : ℕ) (hc : c ≠ j) :
    (figures_of_merit lstsq m nv X mpi C St j).Cn.entry r c = C.entry r c := by
  show (if c = j then X r (mpi j) else C.entry r c) = C.entry r c
  rw [if_neg hc]

/-- Rows 0 to j of the updated pure-spectra matrix hold the solver output. -/
theorem fom_Stn_le (lstsq : ℕ → (ℕ → ℕ → ℝ) → (ℕ → ℕ → ℝ) → ℕ → ℕ → ℝ)
    (m nv : ℕ) (X : ℕ → ℕ → ℝ) (mpi : ℕ → ℕ) (C St : Mat) (j k c : ℕ) (hk : k ≤ j) :
    (figures_of_merit lstsq m nv X mpi C St j).Stn.entry k c =
      lstsq (j + 1) (figures_of_merit lstsq m nv X mpi C St j).Cn.entry X k c := by
  show (if k ≤ j then
      lstsq (j + 1) (figures_of_merit lstsq m nv X mpi C St j).Cn.entry X k c
    else St.entry k c) = _
  rw [if_pos hk]

/-- The returned coefficient of determination in sum form. -/
theorem fom_rsquare_eq (lstsq : ℕ → (ℕ → ℕ → ℝ) → (ℕ → ℕ → ℝ) → ℕ → ℕ → ℝ)
    (m nv : ℕ) (X : ℕ → ℕ → ℝ) (mpi : ℕ → ℕ) (C St : Mat) (j : ℕ) :
    (figures_of_merit lstsq m nv X mpi C St j).rsquare =
      1 - sum2 m nv (fun a b =>
            (specXhat (figures_of_merit lstsq m nv X mpi C St j) j a b - X a b) ^ 2) /
          sum2 m nv (fun a b => X a b ^ 2) := by
  show 1 - normF m nv (fun a b =>
      specXhat (figures_of_merit lstsq m nv X mpi C St j) j a b - X a b) ^ 2 /
        normF m nv X ^ 2 = _
  rw [normF_sq, normF_sq]

/-- With the zero solver the reconstruction is zero, so on the all-ones data
the unexplained variance stays at 100 percent. -/
theorem fom_PB_rsquare (mpi : ℕ → ℕ) (C St : Mat) (j : ℕ) :
    (figures_of_merit lstsqZero 2 2 PB.X mpi C St j).rsquare = 0 := by
  have hV : ∀ r c : ℕ,
      specXhat (figures_of_merit lstsqZero 2 2 PB.X mpi C St j) j r c = 0 := by
    intro r c
    unfold specXhat
    refine Finset.sum_eq_zero fun t ht => ?_
    rw [fom_Stn_le lstsqZero 2 2 PB.X mpi C St j t c
      (Nat.lt_succ_iff.mp (Finset.mem_range.mp ht))]
    show _ * (0 : ℝ) = 0
    exact mul_zero _
  rw [fom_rsquare_eq]
  simp only [hV]
  norm_num [sum2, PB, Finset.sum_range_succ]

/-- With the ones solver the reconstruction of the all-ones data is exact at
iteration 0. -/
theorem fom_PA_rsquare_j0 (mpi : ℕ → ℕ) (C St : Mat) :
    (figures_of_merit lstsqOnes 2 2 PA.X mpi C St 0).rsquare = 1 := by
  have hV : ∀ r c : ℕ,
      specXhat (figures_of_merit lstsqOnes 2 2 PA.X mpi C St 0) 0 r c = 1 := by
    intro r c
    unfold specXhat
    rw [Finset.sum_range_one]
    rw [fom_Stn_le lstsqOnes 2 2 PA.X mpi C St 0 0 c (le_refl 0)]
    rw [fom_Cn_at lstsqOnes 2 2 PA.X mpi C St 0 r]
    show PA.X r (mpi 0) * (1 : ℝ) = 1
    norm_num [PA]
  rw [fom_rsquare_eq]
  simp only [hV]
  norm_num [sum2, PA, Finset.sum_range_succ]

/-- With the ones solver the reconstruction of the all-ones data stays exact
at iteration 1, provided column 0 of C already holds the data column. -/
theorem fom_PA_rsquare_j1 (mpi : ℕ → ℕ) (C St : Mat) (hC : ∀ r, C.entry r 0 = 1) :
    (figures_of_merit lstsqOnes 2 2 PA.X mpi C St 1).rsquare = 1 := by
  have hV : ∀ r c : ℕ,
      specXhat (figures_of_merit lstsqOnes 2 2 PA.X mpi C St 1) 1 r c = 1 := by
    intro r c
    unfold specXhat
    rw [Finset.sum_range_succ, Finset.sum_range_one]
    rw [fom_Stn_le lstsqOnes 2 2 PA.X mpi C St 1 0 c (by omega)]
    rw [fom_Stn_le lstsqOnes 2 2 PA.X mpi C St 1 1 c (le_refl 1)]
    rw [fom_Cn_ne lstsqOnes 2 2 PA.X mpi C St 1 r 0 (by omega), hC r]
    rw [fom_Cn_at lstsqOnes 2 2 PA.X mpi C St 1 r]
    show 1 * (1 : ℝ) + PA.X r (mpi 1) * 0 = 1
    norm_num
  rw [fom_rsquare_eq]
  simp only [hV]
  norm_num [sum2, PA, Finset.sum_range_succ]

/-- Iteration 0 on PA stores the all-ones data column in column 0 of C. -/
theorem stateAt_PA_0_C (r : ℕ) : (stateAt PA 0).C.entry r 0 = 1 := by
  show (figures_of_merit PA.lstsq PA.m PA.nv PA.X
    ((iter0 PA (initState PA)).maxPIndex) (initState PA).C
    (initState PA).St 0).Cn.entry r 0 = 1
  rw [fom_Cn_at]
  norm_num [PA]

/-- On PA the figures of merit of iteration 0 already report a perfect fit. -/
theorem stateAt_PA_0_rsquare : (stateAt PA 0).rsquare = 1 := by
  show (figures_of_merit PA.lstsq PA.m PA.nv PA.X
    ((iter0 PA (initState PA)).maxPIndex) (initState PA).C
    (initState PA).St 0).rsquare = 1
  exact fom_PA_rsquare_j0 _ _ _

/-- On PA the figures of merit of iteration 1 also report a perfect fit. -/
theorem stateAt_PA_1_rsquare : (stateAt PA 1).rsquare = 1 := by
  show (figures_of_merit PA.lstsq PA.m PA.nv PA.X
    ((stepJ PA 1 (stateAt PA 0)).maxPIndex) (stateAt PA 0).C
    (stateAt PA 0).St 1).rsquare = 1
  exact fom_PA_rsquare_j1 _ _ _ stateAt_PA_0_C

/-- The tolerance criterion already holds at iteration 0 of the PA run. -/
theorem critAt_PA_0 : critAt PA 0 := by
  unfold critAt
  rw [stateAt_PA_0_rsquare]
  norm_num [PA]

/-- The tolerance criterion holds at iteration 1 of the PA run. -/
theorem critAt_PA_1 : critAt PA 1 := by
  unfold critAt
  rw [stateAt_PA_1_rsquare]
  norm_num [PA]

/-- On PB the tolerance criterion never fires at any checked iteration. -/
theorem not_critAt_PB (k : ℕ) (hk : 1 ≤ k) : ¬ critAt PB k := by
  obtain ⟨t, rfl⟩ : ∃ t, k = t + 1 := ⟨k - 1, by omega⟩
  unfold critAt
  have hr : (stateAt PB (t + 1)).rsquare = 0 := by
    show (figures_of_merit PB.lstsq PB.m PB.nv PB.X
      ((stepJ PB (t + 1) (stateAt PB t)).maxPIndex) (stateAt PB t).C
      (stateAt PB t).St (t + 1)).rsquare = 0
    exact fom_PB_rsquare _ _ _ _
  rw [hr]
  norm_num [PB]

/-- The PA run performs a second iteration and stops converged at count 2. -/
theorem runNI_PA : (runNI PA).count = 2 ∧ (runNI PA).converged = true := by
  obtain ⟨h1, h2, -⟩ := runLoop_converged PA 1 1 1 (le_refl 1) rfl (le_refl 1)
    (by decide) (fun k hk1 hk2 => absurd hk2 (by omega)) critAt_PA_1
  exact ⟨h1, h2⟩

/-- Counterexample to claim C4 as stated: on the PA run the figures of merit
of iteration 0 already satisfy (1 - r_square) < tol / 100, yet the run does
not end at that boundary with one accepted component: iteration 0 performs
no tolerance check, a second iteration runs, and the final count is 2. -/
theorem claim_C4_counterexample :
    critAt PA 0 ∧ (runNI PA).count = 2 ∧ (runNI PA).count ≠ 1 :=
  ⟨critAt_PA_0, runNI_PA.1, by
    intro h
    have h2 := runNI_PA.1
    omega⟩

/-- Witness for the amended claim C4 on the PA run at iteration 1. -/
theorem claim_C4_witness :
    (1 ≤ 1 ∧ 1 < PA.npc ∧ critAt PA 1) ∧
    ((runNI PA).count = 1 + 1 ∧ (runNI PA).converged = true ∧
     (runNI PA).reason = TermReason.converged ∧ (runNI PA).Pt.rows = 1 + 1 ∧
     (runNI PA).C.cols = 1 + 1) := by
  have h := claim_C4 PA 1 (le_refl 1) (by decide)
    (fun k hk1 hk2 => absurd hk2 (by omega)) critAt_PA_1
  exact ⟨⟨le_refl 1, by decide, critAt_PA_1⟩, h.1, h.2.1, h.2.2.1, h.2.2.2.1,
    h.2.2.2.2.2.2.2.2.1⟩

/-- Witness for claim C5 on the PB run, where the tolerance never fires. -/
theorem claim_C5_witness :
    (1 ≤ PB.npc ∧ ∀ k, 1 ≤ k → ¬ critAt PB k) ∧
    ((runNI PB).count = PB.npc ∧ (runNI PB).count ≤ PB.npc ∧
     (runNI PB).converged = false ∧ (runNI PB).reason = TermReason.maxReached) :=
  ⟨⟨by decide, not_critAt_PB⟩, claim_C5 PB (by decide) not_critAt_PB⟩

/-- On the all-ones data every per-variable mean equals 1. -/
theorem mean_PA (c : ℕ) : mean PA c = 1 := by
  norm_num [mean, PA, Finset.sum_range_succ]

/-- On the all-ones data every per-variable standard deviation is zero. -/
theorem std_PA (c : ℕ) : std PA c = 0 := by
  unfold std
  rw [mean_PA]
  norm_num [PA, Finset.sum_range_succ, Real.sqrt_zero]

/-- With noise 0 the offset alpha is zero. -/
theorem alpha_PA : alphaV PA = 0 := by
  norm_num [alphaV, PA]

/-- On the all-ones data the purity vector is identically zero. -/
theorem pPur_PA (c : ℕ) : pPur PA c = 0 := by
  unfold pPur
  rw [std_PA]
  simp

/-- The scanning argmax over two equal zero values keeps the first index. -/
theorem npArgmax_two_zero (v : ℕ → ℝ) (h0 : v 0 = 0) (h1 : v 1 = 0) :
    npArgmax v 2 = 0 := by
  show (if v (npArgmax v 1) < v 1 then 1 else npArgmax v 1) = 0
  rw [show npArgmax v 1 = 0 from rfl, h0, h1]
  simp

/-- Iteration 0 of the PA run selects variable 0 (a zero-purity tie). -/
theorem PA_sel0 : (stateAt PA 0).maxPIndex 0 = 0 := by
  rw [show stateAt PA 0 = iter0 PA (initState PA) from rfl, iter0_maxPIndex]
  have hPt : ∀ c, (iter0 PA (initState PA)).Pt.entry 0 c = 0 := by
    intro c
    rw [iter0_Pt_entry, pPur_PA]
    exact zero_mul _
  rw [show PA.nv = 2 from rfl]
  exact npArgmax_two_zero _ (hPt 0) (hPt 1)

/-- Iteration 1 of the PA run again selects variable 0: a re-selection. -/
theorem PA_sel1 : (stateAt PA 1).maxPIndex 1 = 0 := by
  rw [show stateAt PA 1 = stepJ PA 1 (stateAt PA 0) from rfl, stepJ_maxPIndex_self]
  have hPt : ∀ c, (stepJ PA 1 (stateAt PA 0)).Pt.entry 1 c = 0 := by
    intro c
    rw [stepJ_Pt_entry, pPur_PA]
    exact zero_mul _
  rw [show PA.nv = 2 from rfl]
  exact npArgmax_two_zero _ (hPt 0) (hPt 1)

/-- After iteration 1 the stored iteration-0 selection is still variable 0. -/
theorem PA_sel1_prev : (stateAt PA 1).maxPIndex 0 = 0 := by
  rw [show stateAt PA 1 = stepJ PA 1 (stateAt PA 0) from rfl,
    stepJ_maxPIndex_ne PA 1 (stateAt PA 0) 0 (by omega)]
  exact PA_sel0

/-- Claim C9, amended: when the argmax of a later purity row re-selects an
already-chosen variable, the source logs no warning at all (its only warning
concerns negative input values) and execution simply continues, producing
the usual best-effort outputs; the run is never aborted. -/
theorem claim_C9 (Pm : P) (j k : ℕ) (_h1 : 1 ≤ j) (_hk : k < j) (hnpc : 1 ≤ Pm.npc)
    (_hres : (stateAt Pm j).maxPIndex j = (stateAt Pm j).maxPIndex k) :
    SWarn.reselection ∉ warningsOf Pm ∧
    (runNI Pm).count ≤ Pm.npc ∧ (runNI Pm).C.rows = Pm.m ∧
    (runNI Pm).St.cols = Pm.nv := by
  obtain ⟨ha, hb, -, -, he, -, -, -, -⟩ :=
    runLoop_shape Pm (Pm.npc - 1) 1 (stateAt Pm 0) (stateAt_dimsOK Pm 0) (by omega)
  refine ⟨?_, ha, hb, he⟩
  unfold warningsOf
  split
  · simp
  · simp

/-- Counterexample to claim C9 as stated: on the PA run iteration 1
re-selects variable 0, already chosen at iteration 0, yet the constructor
emits no warning whatsoever. -/
theorem claim_C9_counterexample :
    (stateAt PA 1).maxPIndex 1 = (stateAt PA 1).maxPIndex 0 ∧
    (stateAt PA 1).maxPIndex 1 = 0 ∧ warningsOf PA = [] := by
  refine ⟨by rw [PA_sel1, PA_sel1_prev], PA_sel1, ?_⟩
  unfold warningsOf
  rw [if_neg]
  rintro ⟨r, -, c, -, hneg⟩
  norm_num [PA] at hneg

/-- Witness for the amended claim C9 on the PA run. -/
theorem claim_C9_witness :
    (1 ≤ 1 ∧ 0 < 1 ∧ 1 ≤ PA.npc ∧
     (stateAt PA 1).maxPIndex 1 = (stateAt PA 1).maxPIndex 0) ∧
    (SWarn.reselection ∉ warningsOf PA ∧ (runNI PA).count ≤ PA.npc ∧
     (runNI PA).C.rows = PA.m ∧ (runNI PA).St.cols = PA.nv) := by
  have hres : (stateAt PA 1).maxPIndex 1 = (stateAt PA 1).maxPIndex 0 := by
    rw [PA_sel1, PA_sel1_prev]
  exact ⟨⟨le_refl 1, Nat.zero_lt_one, by decide, hres⟩,
    claim_C9 PA 1 0 (le_refl 1) Nat.zero_lt_one (by decide) hres⟩

/-- Claim C6: whenever the supplied n_pc is not an integer or is smaller
than 2, the constructor checks fail with the n_pc error before the run is
performed and before any result matrix is built: the whole constructor
returns that error. -/
theorem claim_C6 (lstsq : ℕ → (ℕ → ℕ → ℝ) → (ℕ → ℕ → ℝ) → ℕ → ℕ → ℝ)
    (m nv : ℕ) (X : ℕ → ℕ → ℝ) (npcArg : PyNum) (noise tol : ℝ)
    (hbad : npcArg.toRat < 2 ∨ npcArg.isInt = false) :
    simplismaCheck 2 false npcArg = Except.error SErr.badNPc ∧
    simplismaNI lstsq m nv X npcArg noise tol = Except.error SErr.badNPc := by
  have hc : simplismaCheck 2 false npcArg = Except.error SErr.badNPc := by
    unfold simplismaCheck
    rw [if_neg (by norm_num), if_pos hbad]
  refine ⟨hc, ?_⟩
  unfold simplismaNI
  rw [hc]

/-- Witness for claim C6 at n_pc = 1. -/
theorem claim_C6_witness :
    ((PyNum.pint 1).toRat < 2 ∨ (PyNum.pint 1).isInt = false) ∧
    simplismaCheck 2 false (PyNum.pint 1) = Except.error SErr.badNPc ∧
    simplismaNI lstsqZero 1 1 (fun _ _ => 0) (PyNum.pint 1) 3 (1 / 10) =
      Except.error SErr.badNPc := by
  have hbad : (PyNum.pint 1).toRat < 2 ∨ (PyNum.pint 1).isInt = false := by
    left
    norm_num [PyNum.toRat]
  obtain ⟨h1, h2⟩ := claim_C6 lstsqZero 1 1 (fun _ _ => 0) (PyNum.pint 1) 3 (1 / 10) hbad
  exact ⟨hbad, h1, h2⟩

/-- Claim C10: interactive mode does not bypass the n_pc validation.  The
check is applied to the caller-supplied value before the interactive
override to 100, so an invalid n_pc fails with the same error as in
non-interactive mode. -/
theorem claim_C10 (npcArg : PyNum) (hbad : npcArg.toRat < 2 ∨ npcArg.isInt = false) :
    simplismaCheck 2 true npcArg = Except.error SErr.badNPc ∧
    simplismaCheck 2 true npcArg = simplismaCheck 2 false npcArg := by
  have ht : simplismaCheck 2 true npcArg = Except.error SErr.badNPc := by
    unfold simplismaCheck
    rw [if_neg (by norm_num), if_pos hbad]
  have hf : simplismaCheck 2 false npcArg = Except.error SErr.badNPc := by
    unfold simplismaCheck
    rw [if_neg (by norm_num), if_pos hbad]
  exact ⟨ht, ht.trans hf.symm⟩

/-- Witness for claim C10 at n_pc = 1. -/
theorem claim_C10_witness :
    ((PyNum.pint 1).toRat < 2 ∨ (PyNum.pint 1).isInt = false) ∧
    simplismaCheck 2 true (PyNum.pint 1) = Except.error SErr.badNPc ∧
    simplismaCheck 2 true (PyNum.pint 1) = simplismaCheck 2 false (PyNum.pint 1) := by
  have hbad : (PyNum.pint 1).toRat < 2 ∨ (PyNum.pint 1).isInt = false := by
    left
    norm_num [PyNum.toRat]
  obtain ⟨h1, h2⟩ := claim_C10 (PyNum.pint 1) hbad
  exact ⟨hbad, h1, h2⟩

/-- Claim C8 (code bug): on an input whose mask covers exactly one entire
row and one entire column, restore after strip with axis both fails.  The
row stage allocates its target with the column count N captured before the
column restoration, so the slice assignment receives an array one column
wider than its slot: numpy raises a broadcast ValueError, modelled here as
the error result. -/
theorem claim_C8 :
    restoreMaskedData 2 2 XmBug.mask (toMMat (removeMaskedData XmBug)) Axis.both =
      Except.error () := rfl

end Simplisma
